import Mathlib

/-
Verification development for the herox desktop-automation library.

The image matching engine (src/image.rs) and the window backend
(src/window.rs) are embedded shallowly: `RgbaImage` is a width x height
grid of 8-bit RGBA samples, every `Async*::compute` task body becomes a
pure Lean function returning `Except String _` (mirroring the Rust
`Result<_, napi::Error>`), and `u32` arithmetic is carried out on `Nat`
(all source operations stay far below `2^32` except where noted).

The Rust code compares `f64` color distances against an `f64` threshold
`max_distance * percent` and rounds the mismatch budget with
`f64::round`.  Channel differences and their squares are integers that
`f64` represents exactly; the embedding works with exact rationals and
replaces the single square-root comparison `sqrt s <= t` by the
equivalent exact test `0 <= t && s <= t^2`, which is spelled out and
proved equivalent to the square-root form in the theorem for claim C2.

`u32` arithmetic that can overflow is modelled with an explicit
`% 2^32` (release wrapping semantics; debug builds panic at the same
spots): the bounding-box widths `max - min + 1`, the placement
coordinates `start + (pixel - min)`, and `check_feature`'s guard sums.
Raster dimensions are `u32` in the source, so `RgbaImage` carries
`width < 2^32` and `height < 2^32` as invariants.
-/

deriving instance DecidableEq for Except

namespace Herox

/-- One RGBA sample of the `image` crate: four 8-bit channels. -/
structure Rgba where
  r : Fin 256
  g : Fin 256
  b : Fin 256
  a : Fin 256
deriving DecidableEq

/-- A decoded raster: `image::RgbaImage`.  `pix x y` is the sample at
column `x`, row `y`; only coordinates with `x < width` and `y < height`
are meaningful, and bounds-checked access goes through
`get_pixel_checked` exactly as in the source.  The dimensions are `u32`
in the source (`width()`/`height()` return `u32`), so the model carries
the corresponding bounds as invariants. -/
structure RgbaImage where
  width : ℕ
  height : ℕ
  pix : ℕ → ℕ → Rgba
  width_lt : width < 2 ^ 32
  height_lt : height < 2 ^ 32

/-- `RgbaImage::get_pixel_checked`: `Some` sample inside the raster,
`None` outside. -/
def RgbaImage.get_pixel_checked (img : RgbaImage) (x y : ℕ) : Option Rgba :=
  if x < img.width ∧ y < img.height then some (img.pix x y) else none

/-- `RgbaImage::get_pixel`.  The source's unchecked accessor panics out
of bounds; the model keeps it total.  Inside `find_feature` it is only
reached at positions the loop bounds keep inside the raster, except
through the wrapped-width-0 corner (coordinate spread `2^32 - 1`),
where the panicking source and this total model diverge — that corner
is the subject of C7's counterexample, and no confirmed theorem relies
on the sampled value there. -/
def RgbaImage.get_pixel (img : RgbaImage) (x y : ℕ) : Rgba :=
  img.pix x y

/-- `Pixel` of src/image.rs: a sampled point with its packed color. -/
structure Pixel where
  x : ℕ
  y : ℕ
  rgba : ℕ
deriving DecidableEq

/-- `Feature` of src/image.rs: a sparse pattern of pixels. -/
structure Feature where
  pixels : List Pixel
deriving DecidableEq

/-- `ColourFrequency` of src/image.rs: one histogram entry. -/
structure ColourFrequency where
  rgba : ℕ
  count : ℕ
deriving DecidableEq

/-- `rgba_into_rgba_number`: pack the four 8-bit channels into one
number, `(r << 24) | (g << 16) | (b << 8) | a`; on 8-bit channels the
shifted fields are disjoint, so the packing is the sum below. -/
def rgba_into_rgba_number (rgba : Rgba) : ℕ :=
  rgba.r.val * 2 ^ 24 + rgba.g.val * 2 ^ 16 + rgba.b.val * 2 ^ 8 + rgba.a.val

/-- `rgba_number_into_rgba`: unpack `(n >> 24) & 0xFF`, `(n >> 16) & 0xFF`,
`(n >> 8) & 0xFF`, `n & 0xFF`. -/
def rgba_number_into_rgba (rgba_number : ℕ) : Rgba :=
  ⟨⟨rgba_number / 2 ^ 24 % 256, Nat.mod_lt _ (by norm_num)⟩,
   ⟨rgba_number / 2 ^ 16 % 256, Nat.mod_lt _ (by norm_num)⟩,
   ⟨rgba_number / 2 ^ 8 % 256, Nat.mod_lt _ (by norm_num)⟩,
   ⟨rgba_number % 256, Nat.mod_lt _ (by norm_num)⟩⟩

/-- The squared color distance of `color_distance` in src/image.rs:
the sum of the squared per-channel differences, with the alpha term
included iff `use_alpha`.  `color_distance` itself is the square root
of this value. -/
def color_distance_sq (color1_u32 color2_u32 : ℕ) (use_alpha : Bool) : ℤ :=
  let rgba1 := rgba_number_into_rgba color1_u32
  let rgba2 := rgba_number_into_rgba color2_u32
  let dr : ℤ := (rgba1.r.val : ℤ) - (rgba2.r.val : ℤ)
  let dg : ℤ := (rgba1.g.val : ℤ) - (rgba2.g.val : ℤ)
  let db : ℤ := (rgba1.b.val : ℤ) - (rgba2.b.val : ℤ)
  let da : ℤ := (rgba1.a.val : ℤ) - (rgba2.a.val : ℤ)
  if use_alpha then dr * dr + dg * dg + db * db + da * da
  else dr * dr + dg * dg + db * db

/-- The source's comparison `color_distance(c1, c2, use_alpha) <= t`,
written without the square root: for a nonnegative radicand,
`sqrt s <= t` holds iff `0 <= t` and `s <= t^2` (claim C2's theorem
proves this equivalence against the square-root form). -/
def color_distance_le (color1_u32 color2_u32 : ℕ) (use_alpha : Bool) (t : ℚ) : Bool :=
  decide (0 ≤ t ∧ (color_distance_sq color1_u32 color2_u32 use_alpha : ℚ) ≤ t ^ 2)

/-- `iter().min().unwrap_or(0)` over a list of `u32`. -/
def minOr0 : List ℕ → ℕ
  | [] => 0
  | x :: xs =>
    match xs with
    | [] => x
    | _ :: _ => min x (minOr0 xs)

/-- `iter().max().unwrap_or(0)` over a list of `u32`. -/
def maxOr0 : List ℕ → ℕ
  | [] => 0
  | x :: xs =>
    match xs with
    | [] => x
    | _ :: _ => max x (maxOr0 xs)

/-- `min_feat_x` as computed by `AsyncFindFeatures::compute` and
`AsyncCheckFeature::compute`. -/
def feature_min_x (feature : Feature) : ℕ := minOr0 (feature.pixels.map Pixel.x)

/-- `min_feat_y` of the source. -/
def feature_min_y (feature : Feature) : ℕ := minOr0 (feature.pixels.map Pixel.y)

/-- `max_feat_x` of the source. -/
def feature_max_x (feature : Feature) : ℕ := maxOr0 (feature.pixels.map Pixel.x)

/-- `max_feat_y` of the source. -/
def feature_max_y (feature : Feature) : ℕ := maxOr0 (feature.pixels.map Pixel.y)

/-- `feature_width = max_feat_x - min_feat_x + 1` in `u32` arithmetic:
the subtraction never underflows (the max dominates the min), but the
`+ 1` wraps modulo `2^32` when the coordinate spread is exactly
`2^32 - 1`, giving width `0` (release semantics; a debug build panics
on the same overflow). -/
def feature_width (feature : Feature) : ℕ :=
  (feature_max_x feature - feature_min_x feature + 1) % 2 ^ 32

/-- `feature_height = max_feat_y - min_feat_y + 1`, with the same `u32`
wrap as `feature_width`. -/
def feature_height (feature : Feature) : ℕ :=
  (feature_max_y feature - feature_min_y feature + 1) % 2 ^ 32

/-- `f64::round`: round half away from zero. -/
def round_half_away_from_zero (q : ℚ) : ℤ :=
  if 0 ≤ q then ⌊q + 1 / 2⌋ else ⌈q - 1 / 2⌉

/-- Rust's saturating float-to-int `as u32` cast applied to an integral
`f64`: negative values clamp to `0`, large values to `u32::MAX`. -/
def f64_to_u32 (z : ℤ) : ℕ := min z.toNat (2 ^ 32 - 1)

/-- One feature pixel's test at a candidate placement, shared by the
sliding search and the anchored score: fetch the raster sample under
the feature pixel (`None` if out of bounds) and compare colors with
alpha included.  An out-of-bounds sample never matches.  The placement
coordinates `start + (pixel - min_feat)` are `u32` additions, so they
wrap modulo `2^32` (release semantics; a debug build panics on the
overflow); the inner subtraction never underflows for pixels of the
feature the minimum was taken over. -/
def pixel_matches (img : RgbaImage) (tol : ℚ)
    (min_feat_x min_feat_y start_x start_y : ℕ) (feature_pixel : Pixel) : Bool :=
  match img.get_pixel_checked ((start_x + (feature_pixel.x - min_feat_x)) % 2 ^ 32)
      ((start_y + (feature_pixel.y - min_feat_y)) % 2 ^ 32) with
  | some img_pixel_rgba =>
    color_distance_le feature_pixel.rgba (rgba_into_rgba_number img_pixel_rgba) true tol
  | none => false

/-- The inner pixel scan of `AsyncFindFeatures::compute` at one
candidate position: walk the feature pixels accumulating
`current_mismatches`, and break out of the scan as soon as the counter
exceeds `budget`, exactly as the source's `break`. -/
def scan_mismatches (img : RgbaImage) (tol : ℚ)
    (min_feat_x min_feat_y start_x start_y budget : ℕ) :
    List Pixel → ℕ → ℕ
  | [], acc => acc
  | fp :: rest, acc =>
    if pixel_matches img tol min_feat_x min_feat_y start_x start_y fp then
      scan_mismatches img tol min_feat_x min_feat_y start_x start_y budget rest acc
    else if acc + 1 > budget then acc + 1
    else scan_mismatches img tol min_feat_x min_feat_y start_x start_y budget rest (acc + 1)

/-- The total number of mismatching feature pixels at a candidate
position (the value the scan would reach with no early break). -/
def mismatch_count (img : RgbaImage) (tol : ℚ)
    (min_feat_x min_feat_y start_x start_y : ℕ) (ps : List Pixel) : ℕ :=
  ps.countP fun fp => ! pixel_matches img tol min_feat_x min_feat_y start_x start_y fp

/-- `AsyncFindRgbas::compute` (caller-facing `findColor`): scan the
raster in `enumerate_pixels` order (row-major, x fastest) and report
every pixel whose sample equals the decoded query color. -/
def find_rgbas (img : RgbaImage) (rgba_number : ℕ) : Except String (List Pixel) :=
  let rgba := rgba_number_into_rgba rgba_number
  .ok ((List.range img.height).flatMap fun y =>
    (List.range img.width).filterMap fun x =>
      if img.pix x y = rgba then
        some ⟨x, y, rgba_into_rgba_number (img.pix x y)⟩
      else none)

/-- `AsyncFindFeatures::compute` (caller-facing `findFeature`): the
fuzzy sliding-window search.  The source returns `Ok` on every path;
the max-distance constant is its literal `if true { 510.0 } else
{ 441.67 }`, the mismatch budget is `(count * percent).round() as u32`,
and a position is pushed iff its (early-breaking) mismatch scan ends at
or under the budget, carrying the color sampled at the position's
top-left. -/
def find_feature (img : RgbaImage) (feature : Feature)
    (color_tolerance_percent max_mismatch_percent : ℚ) : Except String (List Pixel) :=
  if feature.pixels.isEmpty then .ok [] else
  if feature_width feature > img.width ∨ feature_height feature > img.height then .ok [] else
  let max_color_distance : ℚ := if true then 510 else 44167 / 100
  let actual_color_tolerance_value := max_color_distance * color_tolerance_percent
  let max_mismatches_count :=
    f64_to_u32 (round_half_away_from_zero
      ((feature.pixels.length : ℚ) * max_mismatch_percent))
  .ok ((List.range (img.height - feature_height feature + 1)).flatMap fun start_y =>
    (List.range (img.width - feature_width feature + 1)).filterMap fun start_x =>
      if scan_mismatches img actual_color_tolerance_value
          (feature_min_x feature) (feature_min_y feature) start_x start_y
          max_mismatches_count feature.pixels 0 ≤ max_mismatches_count then
        some ⟨start_x, start_y, rgba_into_rgba_number (img.get_pixel start_x start_y)⟩
      else none)

/-- `MAX_COLOR_DISTANCE` of `AsyncCheckFeature::compute`. -/
def MAX_COLOR_DISTANCE : ℚ := 510

/-- `AsyncCheckFeature::compute` (caller-facing `checkFeature`): the
anchored score.  Errors on an empty feature and on a placement that
extends beyond the raster; otherwise returns the fraction of feature
pixels whose color matches within `510 * percent`.  The guard's sums
`x + feature_width` and `y + feature_height` are `u32` additions and
wrap modulo `2^32`. -/
def check_feature (img : RgbaImage) (x y : ℕ) (feature : Feature)
    (color_tolerance_percent : ℚ) : Except String ℚ :=
  if feature.pixels.isEmpty then .error "This feature has no pixels" else
  if (x + feature_width feature) % 2 ^ 32 > img.width
      ∨ (y + feature_height feature) % 2 ^ 32 > img.height then
    .error "Feature, when placed at the given top_left point, extends beyond image boundaries."
  else
  let actual_color_tolerance_value := MAX_COLOR_DISTANCE * color_tolerance_percent
  let matching_pixels_count := feature.pixels.countP
    (pixel_matches img actual_color_tolerance_value
      (feature_min_x feature) (feature_min_y feature) x y)
  .ok ((matching_pixels_count : ℚ) / (feature.pixels.length : ℚ))

/-- The `pixels_in_region` loop of `AsyncGetFeature::compute`: walk the
normalized rectangle row-major and record each sample with coordinates
relative to the rectangle's top-left corner. -/
def pixels_in_region (img : RgbaImage) (min_x max_x min_y max_y : ℕ) : List Pixel :=
  (List.range' min_y (max_y - min_y + 1)).flatMap fun y =>
    (List.range' min_x (max_x - min_x + 1)).map fun x =>
      ⟨x - min_x, y - min_y, rgba_into_rgba_number (img.get_pixel x y)⟩

/-- `AsyncGetFeature::compute` (caller-facing `getFeature`): normalize
the corner pair, validate both corners against the raster, and collect
the rectangle's samples with coordinates made relative to the
rectangle's top-left corner. -/
def get_feature (img : RgbaImage) (start_x start_y end_x end_y : ℕ) : Except String Feature :=
  let min_x := min start_x end_x
  let max_x := max start_x end_x
  let min_y := min start_y end_y
  let max_y := max start_y end_y
  if min_x ≥ img.width ∨ min_y ≥ img.height then
    .error "Start point is outside image boundaries."
  else if max_x ≥ img.width ∨ max_y ≥ img.height then
    .error "End point is outside image boundaries."
  else
    .ok ⟨pixels_in_region img min_x max_x min_y max_y⟩

/-- The comparison key of `pixels.sort_by_key(|p| (p.x, p.y))`:
lexicographic order on the coordinate pair. -/
def sort_key_le (p q : Pixel) : Bool :=
  decide (p.x < q.x ∨ (p.x = q.x ∧ p.y ≤ q.y))

/-- The grouping test of `AsyncGetFeaturesFromColor::compute`: squared
pixel distance at most `MAX_DISTANCE * MAX_DISTANCE = 25`. -/
def pixel_close (gp pixel : Pixel) : Bool :=
  decide (((gp.x : ℤ) - (pixel.x : ℤ)) * ((gp.x : ℤ) - (pixel.x : ℤ))
    + ((gp.y : ℤ) - (pixel.y : ℤ)) * ((gp.y : ℤ) - (pixel.y : ℤ)) ≤ 5 * 5)

/-- Try to push `pixel` into the first group holding a member within
the grouping radius, scanning groups in order; `none` when no group
accepts it. -/
def place_in_groups (pixel : Pixel) : List (List Pixel) → Option (List (List Pixel))
  | [] => none
  | group :: rest =>
    if group.any fun gp => pixel_close gp pixel then
      some ((group ++ [pixel]) :: rest)
    else
      (place_in_groups pixel rest).map fun updated => group :: updated

/-- One step of the source's grouping loop: join the first close group
or start a new singleton group at the end. -/
def add_pixel_to_groups (groups : List (List Pixel)) (pixel : Pixel) : List (List Pixel) :=
  match place_in_groups pixel groups with
  | some updated => updated
  | none => groups ++ [[pixel]]

/-- `AsyncGetFeaturesFromColor::compute` (caller-facing
`extractFeatures`): exact search, stable sort by `(x, y)`, then the
greedy single-pass grouping. -/
def get_features_from_color (img : RgbaImage) (rgba_number : ℕ) : Except String (List Feature) :=
  match find_rgbas img rgba_number with
  | .error e => .error e
  | .ok pixels =>
    let sorted := pixels.mergeSort sort_key_le
    let groups := sorted.foldl add_pixel_to_groups []
    .ok (groups.map Feature.mk)

/-- The samples of the normalized rectangle in the iteration order of
`AsyncGetColourFrequencies::compute` (row-major). -/
def region_colour_list (img : RgbaImage) (min_x max_x min_y max_y : ℕ) : List ℕ :=
  (List.range' min_y (max_y - min_y + 1)).flatMap fun y =>
    (List.range' min_x (max_x - min_x + 1)).map fun x =>
      rgba_into_rgba_number (img.get_pixel x y)

/-- `colour_counts.entry(rgba).or_insert(0) += 1` on an association
list kept in first-insertion order. -/
def bump_colour_count : List (ℕ × ℕ) → ℕ → List (ℕ × ℕ)
  | [], key => [(key, 1)]
  | (k, c) :: rest, key =>
    if k = key then (k, c + 1) :: rest else (k, c) :: bump_colour_count rest key

/-- The content of the source's `colour_counts: HashMap<u32, u32>`,
represented as key/count pairs in first-insertion order. -/
def colour_counts (img : RgbaImage) (min_x max_x min_y max_y : ℕ) : List (ℕ × ℕ) :=
  (region_colour_list img min_x max_x min_y max_y).foldl bump_colour_count []

/-- The admissible results of `AsyncGetColourFrequencies::compute`
(caller-facing `getColourFrequencies`).  The source materializes the
histogram by iterating a `std::collections::HashMap`, whose iteration
order is unspecified (seeded per map), so the possible outputs are
exactly the reorderings of the accumulated key/count pairs; the bounds
check and error message are the source's. -/
def get_colour_frequencies_results (img : RgbaImage) (start_x start_y end_x end_y : ℕ)
    (out : Except String (List ColourFrequency)) : Prop :=
  let min_x := min start_x end_x
  let max_x := max start_x end_x
  let min_y := min start_y end_y
  let max_y := max start_y end_y
  if min_x ≥ img.width ∨ min_y ≥ img.height ∨ max_x ≥ img.width ∨ max_y ≥ img.height then
    out = .error "Coordinates are outside image boundaries."
  else
    ∃ kvs : List (ℕ × ℕ), kvs.Perm (colour_counts img min_x max_x min_y max_y) ∧
      out = .ok (kvs.map fun kv => ⟨kv.1, kv.2⟩)

/-- The `Image` wrapper of src/image.rs. -/
structure Image where
  rgba_image : RgbaImage
  width : ℕ
  height : ℕ

/-- Outcome of a Rust constructor that can `panic!`: either a value or
a process abort carrying the panic message. -/
inductive ConstructResult (α : Type) where
  | ok (value : α)
  | panicked (msg : String)
deriving DecidableEq

/-- `impl From<RgbaImage> for Image`: bump the global `IMAGE_COUNT`,
abort the process with `panic!("Too many images")` once the count
exceeds 20, and otherwise wrap the raster.  `image_count` is the number
of simultaneously live images before this construction; the second
component is the counter after the `fetch_add`. -/
def image_from_rgba_image (image_count : ℕ) (value : RgbaImage) :
    ConstructResult Image × ℕ :=
  let new_count := image_count + 1
  if new_count > 20 then (.panicked "Too many images", new_count)
  else (.ok ⟨value, value.width, value.height⟩, new_count)

/-- `WindowError` of src/window.rs. -/
inductive WindowError where
  | ApiError (message : String)
  | EmptyTitle
  | InvalidBitmap
  | UnsupportedPlatform
deriving DecidableEq

/-- The null backend `UnsupportedOSWindow` of src/window.rs. -/
structure UnsupportedOSWindow where

/-- `UnsupportedOSWindow::title`. -/
def UnsupportedOSWindow.title (_w : UnsupportedOSWindow) : Except WindowError String :=
  .error .UnsupportedPlatform

/-- `UnsupportedOSWindow::x`. -/
def UnsupportedOSWindow.x (_w : UnsupportedOSWindow) : Except WindowError ℤ :=
  .error .UnsupportedPlatform

/-- `UnsupportedOSWindow::y`. -/
def UnsupportedOSWindow.y (_w : UnsupportedOSWindow) : Except WindowError ℤ :=
  .error .UnsupportedPlatform

/-- `UnsupportedOSWindow::width`. -/
def UnsupportedOSWindow.width (_w : UnsupportedOSWindow) : Except WindowError ℕ :=
  .error .UnsupportedPlatform

/-- `UnsupportedOSWindow::height`. -/
def UnsupportedOSWindow.height (_w : UnsupportedOSWindow) : Except WindowError ℕ :=
  .error .UnsupportedPlatform

/-- `UnsupportedOSWindow::is_focused`. -/
def UnsupportedOSWindow.is_focused (_w : UnsupportedOSWindow) : Except WindowError Bool :=
  .error .UnsupportedPlatform

/-- `UnsupportedOSWindow::capture_image`. -/
def UnsupportedOSWindow.capture_image (_w : UnsupportedOSWindow) : Except WindowError RgbaImage :=
  .error .UnsupportedPlatform

/-- The `Window` wrapper on a platform with no backend implementation
(`#[cfg(not(target_os = "windows"))]`): its `native_window` is the null
backend. -/
structure Window where
  native_window : UnsupportedOSWindow

/-- `Window::all` on a platform with no backend implementation. -/
def Window.all : Except WindowError (List Window) :=
  .error .UnsupportedPlatform

/-- `Window::title` delegates to the backend. -/
def Window.title (w : Window) : Except WindowError String := w.native_window.title

/-- `Window::x`. -/
def Window.x (w : Window) : Except WindowError ℤ := w.native_window.x

/-- `Window::y`. -/
def Window.y (w : Window) : Except WindowError ℤ := w.native_window.y

/-- `Window::width`. -/
def Window.width (w : Window) : Except WindowError ℕ := w.native_window.width

/-- `Window::height`. -/
def Window.height (w : Window) : Except WindowError ℕ := w.native_window.height

/-- `Window::is_focused`. -/
def Window.is_focused (w : Window) : Except WindowError Bool := w.native_window.is_focused

/-- `AsyncCaptureImage::compute` delegates to the backend before
wrapping the raster. -/
def Window.capture_image (w : Window) : Except WindowError RgbaImage :=
  w.native_window.capture_image

/-- Opaque black, `0x000000FF`. -/
def blackRgba : Rgba := ⟨0, 0, 0, 255⟩

/-- Opaque red, `0xFF0000FF`. -/
def redRgba : Rgba := ⟨255, 0, 0, 255⟩

/-- The spec's concrete scenario: a 4 x 4 raster, black everywhere
except pixel `(2,2)`, which is opaque red. -/
def img4 : RgbaImage :=
  ⟨4, 4, fun x y => if x = 2 ∧ y = 2 then redRgba else blackRgba, by norm_num, by norm_num⟩

/-- A 1 x 1 all-black raster for witnesses. -/
def img1 : RgbaImage := ⟨1, 1, fun _x _y => blackRgba, by norm_num, by norm_num⟩

/-- A 2 x 1 all-black raster, used by the C7 counterexample. -/
def img2 : RgbaImage := ⟨2, 1, fun _x _y => blackRgba, by norm_num, by norm_num⟩

lemma decode_encode (c : Rgba) : rgba_number_into_rgba (rgba_into_rgba_number c) = c := by
  rcases c with ⟨⟨r, hr⟩, ⟨g, hg⟩, ⟨b, hb⟩, ⟨a, ha⟩⟩
  simp only [rgba_into_rgba_number, rgba_number_into_rgba, Rgba.mk.injEq]
  refine ⟨Fin.ext ?_, Fin.ext ?_, Fin.ext ?_, Fin.ext ?_⟩ <;>
    simp only [show (2 : ℕ) ^ 24 = 16777216 by norm_num,
      show (2 : ℕ) ^ 16 = 65536 by norm_num, show (2 : ℕ) ^ 8 = 256 by norm_num] <;>
    omega

lemma encode_lt (c : Rgba) : rgba_into_rgba_number c < 2 ^ 32 := by
  rcases c with ⟨⟨r, hr⟩, ⟨g, hg⟩, ⟨b, hb⟩, ⟨a, ha⟩⟩
  simp only [rgba_into_rgba_number]
  simp only [show (2 : ℕ) ^ 24 = 16777216 by norm_num,
    show (2 : ℕ) ^ 16 = 65536 by norm_num, show (2 : ℕ) ^ 8 = 256 by norm_num,
    show (2 : ℕ) ^ 32 = 4294967296 by norm_num]
  omega

lemma encode_decode (n : ℕ) (h : n < 2 ^ 32) :
    rgba_into_rgba_number (rgba_number_into_rgba n) = n := by
  simp only [rgba_into_rgba_number, rgba_number_into_rgba]
  simp only [show (2 : ℕ) ^ 24 = 16777216 by norm_num,
    show (2 : ℕ) ^ 16 = 65536 by norm_num, show (2 : ℕ) ^ 8 = 256 by norm_num]
  simp only [show (2 : ℕ) ^ 32 = 4294967296 by norm_num] at h
  omega

lemma color_distance_sq_nonneg (c1 c2 : ℕ) (ua : Bool) : 0 ≤ color_distance_sq c1 c2 ua := by
  have h1 := mul_self_nonneg
    (((rgba_number_into_rgba c1).r.val : ℤ) - ((rgba_number_into_rgba c2).r.val : ℤ))
  have h2 := mul_self_nonneg
    (((rgba_number_into_rgba c1).g.val : ℤ) - ((rgba_number_into_rgba c2).g.val : ℤ))
  have h3 := mul_self_nonneg
    (((rgba_number_into_rgba c1).b.val : ℤ) - ((rgba_number_into_rgba c2).b.val : ℤ))
  have h4 := mul_self_nonneg
    (((rgba_number_into_rgba c1).a.val : ℤ) - ((rgba_number_into_rgba c2).a.val : ℤ))
  simp only [color_distance_sq]
  cases ua <;> simp only [Bool.false_eq_true, if_false, if_true] <;> linarith

lemma color_distance_sq_self (n : ℕ) (ua : Bool) : color_distance_sq n n ua = 0 := by
  simp [color_distance_sq]

lemma color_distance_le_self (n : ℕ) (t : ℚ) (ht : 0 ≤ t) :
    color_distance_le n n true t = true := by
  simp [color_distance_le, color_distance_sq_self, ht, sq_nonneg]

lemma minOr0_le {l : List ℕ} {a : ℕ} (ha : a ∈ l) : minOr0 l ≤ a := by
  induction l with
  | nil => cases ha
  | cons x xs ih =>
    cases xs with
    | nil =>
      simp only [List.mem_singleton] at ha
      simp [minOr0, ha]
    | cons y ys =>
      rcases List.mem_cons.mp ha with rfl | hmem
      · exact le_trans (min_le_left _ _) le_rfl
      · exact le_trans (min_le_right _ _) (ih hmem)

lemma minOr0_mem {l : List ℕ} (h : l ≠ []) : minOr0 l ∈ l := by
  induction l with
  | nil => exact absurd rfl h
  | cons x xs ih =>
    cases xs with
    | nil => simp [minOr0]
    | cons y ys =>
      show min x (minOr0 (y :: ys)) ∈ x :: y :: ys
      rcases le_total x (minOr0 (y :: ys)) with hle | hle
      · rw [min_eq_left hle]; exact List.mem_cons_self _ _
      · rw [min_eq_right hle]
        exact List.mem_cons_of_mem _ (ih (by simp))

lemma le_maxOr0 {l : List ℕ} {a : ℕ} (ha : a ∈ l) : a ≤ maxOr0 l := by
  induction l with
  | nil => cases ha
  | cons x xs ih =>
    cases xs with
    | nil =>
      simp only [List.mem_singleton] at ha
      simp [maxOr0, ha]
    | cons y ys =>
      rcases List.mem_cons.mp ha with rfl | hmem
      · exact le_trans le_rfl (le_max_left _ _)
      · exact le_trans (ih hmem) (le_max_right _ _)

lemma maxOr0_mem {l : List ℕ} (h : l ≠ []) : maxOr0 l ∈ l := by
  induction l with
  | nil => exact absurd rfl h
  | cons x xs ih =>
    cases xs with
    | nil => simp [maxOr0]
    | cons y ys =>
      show max x (maxOr0 (y :: ys)) ∈ x :: y :: ys
      rcases le_total x (maxOr0 (y :: ys)) with hle | hle
      · rw [max_eq_right hle]
        exact List.mem_cons_of_mem _ (ih (by simp))
      · rw [max_eq_left hle]; exact List.mem_cons_self _ _

lemma minOr0_eq_zero {l : List ℕ} (h0 : 0 ∈ l) : minOr0 l = 0 :=
  Nat.le_zero.mp (minOr0_le h0)

lemma maxOr0_eq {l : List ℕ} {v : ℕ} (hv : v ∈ l) (hub : ∀ a ∈ l, a ≤ v) : maxOr0 l = v :=
  le_antisymm (hub _ (maxOr0_mem (List.ne_nil_of_mem hv))) (le_maxOr0 hv)

/-- The early-breaking scan computes the full mismatch count truncated
at `budget + 1`: it returns the full count when that count stays within
the budget, and stops at `budget + 1` the moment the counter exceeds
the budget. -/
lemma scan_mismatches_eq_min (img : RgbaImage) (tol : ℚ)
    (mfx mfy sx sy budget : ℕ) (ps : List Pixel) (acc : ℕ) (hacc : acc ≤ budget) :
    scan_mismatches img tol mfx mfy sx sy budget ps acc
      = min (acc + mismatch_count img tol mfx mfy sx sy ps) (budget + 1) := by
  induction ps generalizing acc with
  | nil =>
    simp only [scan_mismatches, mismatch_count, List.countP_nil]
    omega
  | cons fp rest ih =>
    by_cases hm : pixel_matches img tol mfx mfy sx sy fp
    · have hs : scan_mismatches img tol mfx mfy sx sy budget (fp :: rest) acc
          = scan_mismatches img tol mfx mfy sx sy budget rest acc := by
        simp [scan_mismatches, hm]
      rw [hs, ih acc hacc]
      simp [mismatch_count, List.countP_cons, hm]
    · have hm' : pixel_matches img tol mfx mfy sx sy fp = false := by
        simpa using hm
      have hcount : mismatch_count img tol mfx mfy sx sy (fp :: rest)
          = mismatch_count img tol mfx mfy sx sy rest + 1 := by
        simp [mismatch_count, List.countP_cons, hm']
      by_cases hb : acc + 1 > budget
      · have hs : scan_mismatches img tol mfx mfy sx sy budget (fp :: rest) acc = acc + 1 := by
          simp [scan_mismatches, hm', hb]
        rw [hs, hcount]
        omega
      · have hs : scan_mismatches img tol mfx mfy sx sy budget (fp :: rest) acc
            = scan_mismatches img tol mfx mfy sx sy budget rest (acc + 1) := by
          simp [scan_mismatches, hm', hb]
        rw [hs, ih (acc + 1) (by omega), hcount]
        omega

lemma find_feature_exists_ok (img : RgbaImage) (F : Feature) (ct mm : ℚ) :
    ∃ l, find_feature img F ct mm = .ok l := by
  by_cases h1 : F.pixels.isEmpty
  · exact ⟨[], by simp [find_feature, h1]⟩
  · by_cases h2 : feature_width F > img.width ∨ feature_height F > img.height
    · refine ⟨[], ?_⟩
      simp only [find_feature, h1, Bool.false_eq_true, if_false]
      rw [if_pos h2]
    · exact ⟨_, by
        simp only [find_feature, h1, Bool.false_eq_true, if_false]
        rw [if_neg h2]⟩

lemma find_feature_mem (img : RgbaImage) (F : Feature) (ct mm : ℚ) (l : List Pixel) (q : Pixel)
    (hne : F.pixels ≠ [])
    (hfw : feature_width F ≤ img.width) (hfh : feature_height F ≤ img.height)
    (hl : find_feature img F ct mm = .ok l) :
    q ∈ l ↔ ∃ sx sy, sx + feature_width F ≤ img.width ∧ sy + feature_height F ≤ img.height ∧
      mismatch_count img (510 * ct) (feature_min_x F) (feature_min_y F) sx sy F.pixels
        ≤ f64_to_u32 (round_half_away_from_zero ((F.pixels.length : ℚ) * mm)) ∧
      q = ⟨sx, sy, rgba_into_rgba_number (img.pix sx sy)⟩ := by
  have h1 : ¬ F.pixels.isEmpty := by simp [List.isEmpty_iff, hne]
  have h2 : ¬ (feature_width F > img.width ∨ feature_height F > img.height) := by omega
  have key : find_feature img F ct mm
      = .ok ((List.range (img.height - feature_height F + 1)).flatMap fun start_y =>
          (List.range (img.width - feature_width F + 1)).filterMap fun start_x =>
            if scan_mismatches img (510 * ct)
                (feature_min_x F) (feature_min_y F) start_x start_y
                (f64_to_u32 (round_half_away_from_zero ((F.pixels.length : ℚ) * mm)))
                F.pixels 0
                ≤ f64_to_u32 (round_half_away_from_zero ((F.pixels.length : ℚ) * mm)) then
              some ⟨start_x, start_y, rgba_into_rgba_number (img.get_pixel start_x start_y)⟩
            else none) := by
    simp only [find_feature, h1, Bool.false_eq_true, if_false, if_true]
    rw [if_neg h2]
  rw [key] at hl
  injection hl with hl'
  subst hl'
  simp only [List.mem_flatMap, List.mem_filterMap, List.mem_range]
  constructor
  · rintro ⟨sy, hsy, sx, hsx, hq⟩
    by_cases hc : scan_mismatches img (510 * ct)
        (feature_min_x F) (feature_min_y F) sx sy
        (f64_to_u32 (round_half_away_from_zero ((F.pixels.length : ℚ) * mm))) F.pixels 0
        ≤ f64_to_u32 (round_half_away_from_zero ((F.pixels.length : ℚ) * mm))
    · rw [if_pos hc] at hq
      injection hq with hq'
      have hscan := scan_mismatches_eq_min img (510 * ct)
        (feature_min_x F) (feature_min_y F) sx sy
        (f64_to_u32 (round_half_away_from_zero ((F.pixels.length : ℚ) * mm)))
        F.pixels 0 (Nat.zero_le _)
      rw [hscan] at hc
      refine ⟨sx, sy, by omega, by omega, by omega, ?_⟩
      rw [← hq']
      rfl
    · rw [if_neg hc] at hq
      cases hq
  · rintro ⟨sx, sy, hx, hy, hcount, rfl⟩
    refine ⟨sy, by omega, sx, by omega, ?_⟩
    have hscan := scan_mismatches_eq_min img (510 * ct)
      (feature_min_x F) (feature_min_y F) sx sy
      (f64_to_u32 (round_half_away_from_zero ((F.pixels.length : ℚ) * mm)))
      F.pixels 0 (Nat.zero_le _)
    rw [if_pos (by rw [hscan]; omega)]
    rfl

lemma budget_at_zero (n : ℕ) : f64_to_u32 (round_half_away_from_zero ((n : ℚ) * 0)) = 0 := by
  rw [mul_zero, round_half_away_from_zero, if_pos (le_refl (0 : ℚ)), zero_add]
  have hf : ⌊(1 / 2 : ℚ)⌋ = 0 := Int.floor_eq_zero_iff.mpr (Set.mem_Ico.mpr ⟨by norm_num, by norm_num⟩)
  rw [hf]
  simp [f64_to_u32]

lemma mismatch_count_zero {img : RgbaImage} {tol : ℚ} {mfx mfy sx sy : ℕ} {ps : List Pixel}
    (h : ∀ p ∈ ps, pixel_matches img tol mfx mfy sx sy p = true) :
    mismatch_count img tol mfx mfy sx sy ps = 0 := by
  rw [mismatch_count, List.countP_eq_zero]
  intro p hp
  simp [h p hp]

/-- Discharge one `pixel_matches` obligation by exhibiting the sampled
raster coordinate in bounds with the feature pixel's own color. -/
lemma pixel_matches_of_sample {img : RgbaImage} {tol : ℚ} {mfx mfy sx sy : ℕ} {p : Pixel}
    (htol : 0 ≤ tol)
    (hin : (sx + (p.x - mfx)) % 2 ^ 32 < img.width
      ∧ (sy + (p.y - mfy)) % 2 ^ 32 < img.height)
    (hcol : rgba_into_rgba_number (img.pix ((sx + (p.x - mfx)) % 2 ^ 32)
        ((sy + (p.y - mfy)) % 2 ^ 32)) = p.rgba) :
    pixel_matches img tol mfx mfy sx sy p = true := by
  simp only [pixel_matches]
  rw [RgbaImage.get_pixel_checked, if_pos hin]
  show color_distance_le p.rgba
    (rgba_into_rgba_number (img.pix ((sx + (p.x - mfx)) % 2 ^ 32)
      ((sy + (p.y - mfy)) % 2 ^ 32))) true tol = true
  rw [hcol]
  exact color_distance_le_self _ tol htol

/-- C7 counterexample to the oversized-feature clause as stated: on the
2 x 1 all-black raster, the feature with pixels at `x = 0` and
`x = 4294967295` has conceptual bounding-box width `2^32 > 2`, so the
claim demands `Ok([])`; but the source computes the width in `u32`,
where `(2^32 - 1) - 0 + 1` wraps to `0` (release semantics; a debug
build panics on the overflow), the oversize guard is bypassed, the
placement arithmetic wraps the second pixel back in bounds at
`start_x = 1`, and the search reports that position instead of
returning the empty list. -/
theorem claim_C7_counterexample :
    feature_max_x ⟨[⟨0, 0, 255⟩, ⟨4294967295, 0, 255⟩]⟩
        - feature_min_x ⟨[⟨0, 0, 255⟩, ⟨4294967295, 0, 255⟩]⟩ + 1 > img2.width
    ∧ find_feature img2 ⟨[⟨0, 0, 255⟩, ⟨4294967295, 0, 255⟩]⟩ 0 0 ≠ .ok [] := by
  refine ⟨by decide, ?_⟩
  intro hcontra
  apply List.not_mem_nil (⟨1, 0, 255⟩ : Pixel)
  rw [find_feature_mem img2 ⟨[⟨0, 0, 255⟩, ⟨4294967295, 0, 255⟩]⟩ 0 0 [] ⟨1, 0, 255⟩
    (by decide) (by decide) (by decide) hcontra]
  refine ⟨1, 0, by decide, by decide, ?_, by decide⟩
  rw [budget_at_zero, Nat.le_zero,
    show feature_min_x ⟨[⟨0, 0, 255⟩, ⟨4294967295, 0, 255⟩]⟩ = 0 from by decide,
    show feature_min_y ⟨[⟨0, 0, 255⟩, ⟨4294967295, 0, 255⟩]⟩ = 0 from by decide]
  apply mismatch_count_zero
  intro p hp
  rcases List.mem_cons.mp hp with rfl | hp2
  · exact pixel_matches_of_sample (by norm_num) (by decide) (by decide)
  · rcases List.mem_cons.mp hp2 with rfl | hp3
    · exact pixel_matches_of_sample (by norm_num) (by decide) (by decide)
    · cases hp3

/-- C7 (amended), degenerate features: an empty feature gives `Ok([])`
in the sliding search and a malformed-input error in the anchored
score; a feature whose `u32`-computed bounding-box width or height
(`max - min + 1`, wrapping to `0` at a coordinate spread of exactly
`2^32 - 1`) exceeds the raster in the corresponding dimension gives
`Ok([])` in the sliding search.  At the wrap corner the guard is
bypassed and the search proceeds with a width-0 window (the corner the
counterexample above exhibits), which is the one divergence from the
original claim's conceptual bounding box. -/
theorem claim_C7 :
    (∀ (img : RgbaImage) (ct mm : ℚ), find_feature img ⟨[]⟩ ct mm = .ok [])
    ∧ (∀ (img : RgbaImage) (x y : ℕ) (ct : ℚ),
        check_feature img x y ⟨[]⟩ ct = .error "This feature has no pixels")
    ∧ ∀ (img : RgbaImage) (F : Feature) (ct mm : ℚ),
        feature_width F > img.width ∨ feature_height F > img.height →
        find_feature img F ct mm = .ok [] := by
  refine ⟨?_, ?_, ?_⟩
  · intro img ct mm
    simp [find_feature]
  · intro img x y ct
    simp [check_feature]
  · intro img F ct mm h
    by_cases h1 : F.pixels.isEmpty
    · simp [find_feature, h1]
    · simp only [find_feature, h1, Bool.false_eq_true, if_false]
      rw [if_pos h]

/-- Witness for C7 at a concrete input: a two-pixel feature of width 2
on the 1 x 1 raster exceeds the raster and yields `Ok([])`. -/
theorem claim_C7_witness :
    find_feature img1 ⟨[⟨0, 0, 255⟩, ⟨1, 0, 255⟩]⟩ 0 0 = .ok [] :=
  claim_C7.2.2 img1 ⟨[⟨0, 0, 255⟩, ⟨1, 0, 255⟩]⟩ 0 0 (Or.inl (by decide))

/-- C2, tolerance semantics shared by the sliding search and the
anchored score: both convert a tolerance percentage with the with-alpha
maximum distance 510.0, and the exact per-pixel comparison used by both
is equivalent to `sqrt(dr^2 + dg^2 + db^2 + da^2) <= p * 510` with the
Euclidean norm taken over all four channels, alpha included. -/
theorem claim_C2 (c1 c2 : ℕ) (p : ℚ) (hp : 0 ≤ p) :
    (color_distance_le c1 c2 true (510 * p) = true ↔
      Real.sqrt
          ((((rgba_number_into_rgba c1).r.val : ℝ) - ((rgba_number_into_rgba c2).r.val : ℝ)) ^ 2
        + (((rgba_number_into_rgba c1).g.val : ℝ) - ((rgba_number_into_rgba c2).g.val : ℝ)) ^ 2
        + (((rgba_number_into_rgba c1).b.val : ℝ) - ((rgba_number_into_rgba c2).b.val : ℝ)) ^ 2
        + (((rgba_number_into_rgba c1).a.val : ℝ) - ((rgba_number_into_rgba c2).a.val : ℝ)) ^ 2)
        ≤ (p : ℝ) * 510)
    ∧ MAX_COLOR_DISTANCE = 510 := by
  refine ⟨?_, rfl⟩
  have hcast : ((color_distance_sq c1 c2 true : ℤ) : ℝ)
      = (((rgba_number_into_rgba c1).r.val : ℝ) - ((rgba_number_into_rgba c2).r.val : ℝ)) ^ 2
        + (((rgba_number_into_rgba c1).g.val : ℝ) - ((rgba_number_into_rgba c2).g.val : ℝ)) ^ 2
        + (((rgba_number_into_rgba c1).b.val : ℝ) - ((rgba_number_into_rgba c2).b.val : ℝ)) ^ 2
        + (((rgba_number_into_rgba c1).a.val : ℝ) - ((rgba_number_into_rgba c2).a.val : ℝ)) ^ 2 := by
    simp only [color_distance_sq, if_true]
    push_cast
    ring
  rw [color_distance_le, decide_eq_true_iff]
  rw [← hcast, Real.sqrt_le_iff]
  constructor
  · rintro ⟨ht, hle⟩
    constructor
    · have : (0 : ℝ) ≤ ((510 * p : ℚ) : ℝ) := by exact_mod_cast ht
      push_cast at this
      linarith
    · have : ((color_distance_sq c1 c2 true : ℤ) : ℚ) ≤ ((510 * p) ^ 2 : ℚ) := hle
      have h2 : ((color_distance_sq c1 c2 true : ℤ) : ℝ) ≤ (((510 * p) ^ 2 : ℚ) : ℝ) := by
        exact_mod_cast this
      push_cast at h2 ⊢
      nlinarith
  · rintro ⟨ht, hle⟩
    constructor
    · have h0 : (0 : ℝ) ≤ (p : ℝ) * 510 := ht
      have : (0 : ℚ) ≤ p * 510 := by exact_mod_cast h0
      linarith
    · have h2 : ((color_distance_sq c1 c2 true : ℤ) : ℝ) ≤ (((510 * p) ^ 2 : ℚ) : ℝ) := by
        push_cast
        nlinarith
      exact_mod_cast h2

/-- Witness for C2 at a concrete input: black versus opaque red at
tolerance 0. -/
theorem claim_C2_witness :
    (color_distance_le 255 4278190335 true (510 * 0) = true ↔
      Real.sqrt
          ((((rgba_number_into_rgba 255).r.val : ℝ) - ((rgba_number_into_rgba 4278190335).r.val : ℝ)) ^ 2
        + (((rgba_number_into_rgba 255).g.val : ℝ) - ((rgba_number_into_rgba 4278190335).g.val : ℝ)) ^ 2
        + (((rgba_number_into_rgba 255).b.val : ℝ) - ((rgba_number_into_rgba 4278190335).b.val : ℝ)) ^ 2
        + (((rgba_number_into_rgba 255).a.val : ℝ) - ((rgba_number_into_rgba 4278190335).a.val : ℝ)) ^ 2)
        ≤ ((0 : ℚ) : ℝ) * 510)
    ∧ MAX_COLOR_DISTANCE = 510 :=
  claim_C2 255 4278190335 0 (le_refl 0)

lemma mem_pixels_in_region {img : RgbaImage} {min_x max_x min_y max_y : ℕ} {q : Pixel}
    (hx : min_x ≤ max_x) (hy : min_y ≤ max_y) :
    q ∈ pixels_in_region img min_x max_x min_y max_y ↔
      ∃ x y, min_x ≤ x ∧ x ≤ max_x ∧ min_y ≤ y ∧ y ≤ max_y ∧
        q = ⟨x - min_x, y - min_y, rgba_into_rgba_number (img.pix x y)⟩ := by
  simp only [pixels_in_region, List.mem_flatMap, List.mem_map, List.mem_range'_1,
    RgbaImage.get_pixel]
  constructor
  · rintro ⟨y, ⟨hy1, hy2⟩, x, ⟨hx1, hx2⟩, rfl⟩
    exact ⟨x, y, hx1, by omega, hy1, by omega, rfl⟩
  · rintro ⟨x, y, hx1, hx2, hy1, hy2, rfl⟩
    exact ⟨y, ⟨hy1, by omega⟩, x, ⟨hx1, by omega⟩, rfl⟩

lemma pixels_in_region_ne_nil (img : RgbaImage) {min_x max_x min_y max_y : ℕ}
    (hx : min_x ≤ max_x) (hy : min_y ≤ max_y) :
    pixels_in_region img min_x max_x min_y max_y ≠ [] :=
  List.ne_nil_of_mem ((mem_pixels_in_region hx hy).mpr
    ⟨min_x, min_y, le_rfl, hx, le_rfl, hy, rfl⟩)

lemma region_feature_min_x (img : RgbaImage) {min_x max_x min_y max_y : ℕ}
    (hx : min_x ≤ max_x) (hy : min_y ≤ max_y) :
    feature_min_x ⟨pixels_in_region img min_x max_x min_y max_y⟩ = 0 := by
  apply minOr0_eq_zero
  rw [List.mem_map]
  exact ⟨⟨min_x - min_x, min_y - min_y, rgba_into_rgba_number (img.pix min_x min_y)⟩,
    (mem_pixels_in_region hx hy).mpr ⟨min_x, min_y, le_rfl, hx, le_rfl, hy, rfl⟩, by simp⟩

lemma region_feature_min_y (img : RgbaImage) {min_x max_x min_y max_y : ℕ}
    (hx : min_x ≤ max_x) (hy : min_y ≤ max_y) :
    feature_min_y ⟨pixels_in_region img min_x max_x min_y max_y⟩ = 0 := by
  apply minOr0_eq_zero
  rw [List.mem_map]
  exact ⟨⟨min_x - min_x, min_y - min_y, rgba_into_rgba_number (img.pix min_x min_y)⟩,
    (mem_pixels_in_region hx hy).mpr ⟨min_x, min_y, le_rfl, hx, le_rfl, hy, rfl⟩, by simp⟩

lemma region_feature_max_x (img : RgbaImage) {min_x max_x min_y max_y : ℕ}
    (hx : min_x ≤ max_x) (hy : min_y ≤ max_y) :
    feature_max_x ⟨pixels_in_region img min_x max_x min_y max_y⟩ = max_x - min_x := by
  apply maxOr0_eq
  · rw [List.mem_map]
    exact ⟨⟨max_x - min_x, min_y - min_y, rgba_into_rgba_number (img.pix max_x min_y)⟩,
      (mem_pixels_in_region hx hy).mpr ⟨max_x, min_y, hx, le_rfl, le_rfl, hy, rfl⟩, rfl⟩
  · intro a ha
    rw [List.mem_map] at ha
    obtain ⟨p, hp, rfl⟩ := ha
    obtain ⟨x, y, hx1, hx2, _, _, rfl⟩ := (mem_pixels_in_region hx hy).mp hp
    show x - min_x ≤ max_x - min_x
    omega

lemma region_feature_max_y (img : RgbaImage) {min_x max_x min_y max_y : ℕ}
    (hx : min_x ≤ max_x) (hy : min_y ≤ max_y) :
    feature_max_y ⟨pixels_in_region img min_x max_x min_y max_y⟩ = max_y - min_y := by
  apply maxOr0_eq
  · rw [List.mem_map]
    exact ⟨⟨min_x - min_x, max_y - min_y, rgba_into_rgba_number (img.pix min_x max_y)⟩,
      (mem_pixels_in_region hx hy).mpr ⟨min_x, max_y, le_rfl, hx, hy, le_rfl, rfl⟩, rfl⟩
  · intro a ha
    rw [List.mem_map] at ha
    obtain ⟨p, hp, rfl⟩ := ha
    obtain ⟨x, y, _, _, hy1, hy2, rfl⟩ := (mem_pixels_in_region hx hy).mp hp
    show y - min_y ≤ max_y - min_y
    omega

lemma region_feature_width (img : RgbaImage) {min_x max_x min_y max_y : ℕ}
    (hx : min_x ≤ max_x) (hy : min_y ≤ max_y) (hmx : max_x < img.width) :
    feature_width ⟨pixels_in_region img min_x max_x min_y max_y⟩ = max_x - min_x + 1 := by
  rw [feature_width, region_feature_max_x img hx hy, region_feature_min_x img hx hy]
  have hw := img.width_lt
  simp only [show (2 : ℕ) ^ 32 = 4294967296 from by norm_num] at hw ⊢
  omega

lemma region_feature_height (img : RgbaImage) {min_x max_x min_y max_y : ℕ}
    (hx : min_x ≤ max_x) (hy : min_y ≤ max_y) (hmy : max_y < img.height) :
    feature_height ⟨pixels_in_region img min_x max_x min_y max_y⟩ = max_y - min_y + 1 := by
  rw [feature_height, region_feature_max_y img hx hy, region_feature_min_y img hx hy]
  have hh := img.height_lt
  simp only [show (2 : ℕ) ^ 32 = 4294967296 from by norm_num] at hh ⊢
  omega

/-- Every pixel of an extracted region matches the raster it came from
when the region is anchored back at its own top-left corner, for any
nonnegative tolerance. -/
lemma region_pixel_matches (img : RgbaImage) {min_x max_x min_y max_y : ℕ}
    (hx : min_x ≤ max_x) (hy : min_y ≤ max_y)
    (hmx : max_x < img.width) (hmy : max_y < img.height) (tol : ℚ) (htol : 0 ≤ tol) :
    ∀ p ∈ pixels_in_region img min_x max_x min_y max_y,
      pixel_matches img tol 0 0 min_x min_y p = true := by
  intro p hp
  obtain ⟨x, y, hx1, hx2, hy1, hy2, rfl⟩ := (mem_pixels_in_region hx hy).mp hp
  simp only [pixel_matches]
  have hxlt : x < 2 ^ 32 := lt_trans (Nat.lt_of_le_of_lt hx2 hmx) img.width_lt
  have hylt : y < 2 ^ 32 := lt_trans (Nat.lt_of_le_of_lt hy2 hmy) img.height_lt
  have hcx : (min_x + (x - min_x - 0)) % 2 ^ 32 = x := by
    rw [show min_x + (x - min_x - 0) = x from by omega]
    exact Nat.mod_eq_of_lt hxlt
  have hcy : (min_y + (y - min_y - 0)) % 2 ^ 32 = y := by
    rw [show min_y + (y - min_y - 0) = y from by omega]
    exact Nat.mod_eq_of_lt hylt
  rw [hcx, hcy, RgbaImage.get_pixel_checked, if_pos ⟨by omega, by omega⟩]
  exact color_distance_le_self _ tol htol

lemma get_feature_ok (img : RgbaImage) (x0 y0 x1 y1 : ℕ)
    (hx0 : x0 < img.width) (hx1 : x1 < img.width)
    (hy0 : y0 < img.height) (hy1 : y1 < img.height) :
    get_feature img x0 y0 x1 y1
      = .ok ⟨pixels_in_region img (min x0 x1) (max x0 x1) (min y0 y1) (max y0 y1)⟩ := by
  simp only [get_feature]
  rw [if_neg (by omega), if_neg (by omega)]

/-- C4, extraction is a left inverse of placement for the sliding
search: extracting any in-bounds rectangle and searching for it in the
same raster with 0% color tolerance and 0% mismatch budget reports the
rectangle's top-left corner among the returned positions. -/
theorem claim_C4 (img : RgbaImage) (x0 y0 x1 y1 : ℕ)
    (hx0 : x0 < img.width) (hx1 : x1 < img.width)
    (hy0 : y0 < img.height) (hy1 : y1 < img.height) :
    ∃ F l, get_feature img x0 y0 x1 y1 = .ok F ∧ find_feature img F 0 0 = .ok l ∧
      ∃ q ∈ l, q.x = min x0 x1 ∧ q.y = min y0 y1 := by
  have hx : min x0 x1 ≤ max x0 x1 := le_trans (min_le_left _ _) (le_max_left _ _)
  have hy : min y0 y1 ≤ max y0 y1 := le_trans (min_le_left _ _) (le_max_left _ _)
  have hmx : max x0 x1 < img.width := max_lt hx0 hx1
  have hmy : max y0 y1 < img.height := max_lt hy0 hy1
  set F : Feature := ⟨pixels_in_region img (min x0 x1) (max x0 x1) (min y0 y1) (max y0 y1)⟩
    with hF
  have hne : F.pixels ≠ [] := pixels_in_region_ne_nil img hx hy
  have hfw : feature_width F ≤ img.width := by
    rw [hF, region_feature_width img hx hy hmx]
    omega
  have hfh : feature_height F ≤ img.height := by
    rw [hF, region_feature_height img hx hy hmy]
    omega
  obtain ⟨l, hl⟩ := find_feature_exists_ok img F 0 0
  refine ⟨F, l, get_feature_ok img x0 y0 x1 y1 hx0 hx1 hy0 hy1, hl, ?_⟩
  refine ⟨⟨min x0 x1, min y0 y1,
    rgba_into_rgba_number (img.pix (min x0 x1) (min y0 y1))⟩, ?_, rfl, rfl⟩
  rw [find_feature_mem img F 0 0 l _ hne hfw hfh hl]
  refine ⟨min x0 x1, min y0 y1, ?_, ?_, ?_, rfl⟩
  · rw [hF, region_feature_width img hx hy hmx]
    omega
  · rw [hF, region_feature_height img hx hy hmy]
    omega
  · have hzero : mismatch_count img (510 * 0) (feature_min_x F) (feature_min_y F)
        (min x0 x1) (min y0 y1) F.pixels = 0 := by
      rw [hF, region_feature_min_x img hx hy, region_feature_min_y img hx hy]
      exact mismatch_count_zero (region_pixel_matches img hx hy hmx hmy (510 * 0) (by norm_num))
    rw [hzero, budget_at_zero]

/-- Witness for C4: the full 1 x 1 rectangle of the black raster. -/
theorem claim_C4_witness :
    ∃ F l, get_feature img1 0 0 0 0 = .ok F ∧ find_feature img1 F 0 0 = .ok l ∧
      ∃ q ∈ l, q.x = min 0 0 ∧ q.y = min 0 0 :=
  claim_C4 img1 0 0 0 0 (by decide) (by decide) (by decide) (by decide)

/-- C5, anchored rescoring of an extracted region: scoring an extracted
feature at its own top-left corner with 0% tolerance succeeds and
returns exactly 1.0. -/
theorem claim_C5 (img : RgbaImage) (x0 y0 x1 y1 : ℕ)
    (hx0 : x0 < img.width) (hx1 : x1 < img.width)
    (hy0 : y0 < img.height) (hy1 : y1 < img.height) :
    ∃ F, get_feature img x0 y0 x1 y1 = .ok F ∧
      check_feature img (min x0 x1) (min y0 y1) F 0 = .ok 1 := by
  have hx : min x0 x1 ≤ max x0 x1 := le_trans (min_le_left _ _) (le_max_left _ _)
  have hy : min y0 y1 ≤ max y0 y1 := le_trans (min_le_left _ _) (le_max_left _ _)
  have hmx : max x0 x1 < img.width := max_lt hx0 hx1
  have hmy : max y0 y1 < img.height := max_lt hy0 hy1
  set F : Feature := ⟨pixels_in_region img (min x0 x1) (max x0 x1) (min y0 y1) (max y0 y1)⟩
    with hF
  have hne : F.pixels ≠ [] := pixels_in_region_ne_nil img hx hy
  have h1 : ¬ F.pixels.isEmpty := by simp [List.isEmpty_iff, hne]
  refine ⟨F, get_feature_ok img x0 y0 x1 y1 hx0 hx1 hy0 hy1, ?_⟩
  have hbound : ¬ ((min x0 x1 + feature_width F) % 2 ^ 32 > img.width
      ∨ (min y0 y1 + feature_height F) % 2 ^ 32 > img.height) := by
    rw [hF, region_feature_width img hx hy hmx, region_feature_height img hx hy hmy]
    have hw := img.width_lt
    have hh := img.height_lt
    simp only [show (2 : ℕ) ^ 32 = 4294967296 from by norm_num] at hw hh ⊢
    omega
  simp only [check_feature, h1, Bool.false_eq_true, if_false]
  rw [if_neg hbound]
  have hall : ∀ p ∈ F.pixels,
      pixel_matches img (MAX_COLOR_DISTANCE * 0) (feature_min_x F) (feature_min_y F)
        (min x0 x1) (min y0 y1) p = true := by
    rw [hF, region_feature_min_x img hx hy, region_feature_min_y img hx hy]
    exact region_pixel_matches img hx hy hmx hmy (MAX_COLOR_DISTANCE * 0) (by norm_num [MAX_COLOR_DISTANCE])
  have hcount : F.pixels.countP
      (pixel_matches img (MAX_COLOR_DISTANCE * 0) (feature_min_x F) (feature_min_y F)
        (min x0 x1) (min y0 y1)) = F.pixels.length :=
    List.countP_eq_length.mpr hall
  rw [hcount]
  have hlen : (F.pixels.length : ℚ) ≠ 0 :=
    Nat.cast_ne_zero.mpr (fun h => hne (List.length_eq_zero.mp h))
  rw [div_self hlen]

/-- Witness for C5: the full 1 x 1 rectangle of the black raster. -/
theorem claim_C5_witness :
    ∃ F, get_feature img1 0 0 0 0 = .ok F ∧
      check_feature img1 (min 0 0) (min 0 0) F 0 = .ok 1 :=
  claim_C5 img1 0 0 0 0 (by decide) (by decide) (by decide) (by decide)

lemma mem_find_rgbas_row {img : RgbaImage} {rgba : Rgba} {y : ℕ} {q : Pixel}
    (hq : q ∈ (List.range img.width).filterMap fun x =>
      if img.pix x y = rgba then some ⟨x, y, rgba_into_rgba_number (img.pix x y)⟩ else none) :
    q.x < img.width ∧ q.y = y ∧ img.pix q.x q.y = rgba
      ∧ q.rgba = rgba_into_rgba_number (img.pix q.x q.y) := by
  rw [List.mem_filterMap] at hq
  obtain ⟨x, hx, hfx⟩ := hq
  rw [List.mem_range] at hx
  by_cases hc : img.pix x y = rgba
  · rw [if_pos hc] at hfx
    injection hfx with hfx'
    subst hfx'
    exact ⟨hx, rfl, hc, rfl⟩
  · rw [if_neg hc] at hfx
    cases hfx

lemma find_rgbas_nodup (img : RgbaImage) (rgba : Rgba) :
    ((List.range img.height).flatMap fun y =>
      (List.range img.width).filterMap fun x =>
        if img.pix x y = rgba then
          some (Pixel.mk x y (rgba_into_rgba_number (img.pix x y)))
        else none).Nodup := by
  rw [List.nodup_flatMap]
  constructor
  · intro y _
    refine List.Nodup.filterMap ?_ (List.nodup_range _)
    intro a b q hqa hqb
    by_cases hca : img.pix a y = rgba
    · by_cases hcb : img.pix b y = rgba
      · rw [if_pos hca] at hqa
        rw [if_pos hcb] at hqb
        simp only [Option.mem_def, Option.some.injEq] at hqa hqb
        exact congrArg Pixel.x (hqa.trans hqb.symm)
      · rw [if_neg hcb] at hqb
        cases hqb
    · rw [if_neg hca] at hqa
      cases hqa
  · refine List.Pairwise.imp ?_ (List.nodup_range img.height)
    intro y y' hne q hqy hqy'
    have h1 := (mem_find_rgbas_row hqy).2.1
    have h2 := (mem_find_rgbas_row hqy').2.1
    exact hne (h1.symm.trans h2)

/-- C6, exact color search: `findColor` reports exactly the in-bounds
pixels whose packed RGBA equals the query (each carrying that color),
with no duplicates, and as a pure function it is deterministic. -/
theorem claim_C6 (img : RgbaImage) (C : ℕ) (hC : C < 2 ^ 32) :
    ∃ l, find_rgbas img C = .ok l
      ∧ (∀ p : Pixel, p ∈ l ↔ p.x < img.width ∧ p.y < img.height ∧
          rgba_into_rgba_number (img.pix p.x p.y) = C ∧ p.rgba = C)
      ∧ l.Nodup
      ∧ find_rgbas img C = find_rgbas img C := by
  refine ⟨_, rfl, ?_, find_rgbas_nodup img (rgba_number_into_rgba C), rfl⟩
  intro p
  constructor
  · intro hp
    rw [List.mem_flatMap] at hp
    obtain ⟨y, hy, hrow⟩ := hp
    rw [List.mem_range] at hy
    obtain ⟨hx, hyy, hpix, hrgba⟩ := mem_find_rgbas_row hrow
    subst hyy
    refine ⟨hx, hy, ?_, ?_⟩
    · rw [hpix, encode_decode C hC]
    · rw [hrgba, hpix, encode_decode C hC]
  · rintro ⟨hx, hy, henc, hrgba⟩
    have hpix : img.pix p.x p.y = rgba_number_into_rgba C := by
      have := congrArg rgba_number_into_rgba henc
      rwa [decode_encode] at this
    rw [List.mem_flatMap]
    refine ⟨p.y, List.mem_range.mpr hy, ?_⟩
    rw [List.mem_filterMap]
    refine ⟨p.x, List.mem_range.mpr hx, ?_⟩
    rw [if_pos hpix, show rgba_into_rgba_number (img.pix p.x p.y) = p.rgba
      from henc.trans hrgba.symm]

/-- Witness for C6: the exact-red query on the 4 x 4 scenario raster. -/
theorem claim_C6_witness :
    ∃ l, find_rgbas img4 4278190335 = .ok l
      ∧ (∀ p : Pixel, p ∈ l ↔ p.x < img4.width ∧ p.y < img4.height ∧
          rgba_into_rgba_number (img4.pix p.x p.y) = 4278190335 ∧ p.rgba = 4278190335)
      ∧ l.Nodup
      ∧ find_rgbas img4 4278190335 = find_rgbas img4 4278190335 :=
  claim_C6 img4 4278190335 (by decide)

/-- C1 names a lifecycle bound the code does not honor: constructing
the 21st simultaneously live `Image` runs the source's literal
`panic!("Too many images")` instead of returning a typed
resource-exhaustion error — the `From<RgbaImage>` conversion has no
error channel at all.  The theorem evaluates the constructor at the
failing input: with 20 images already live, the next construction
aborts the process. -/
theorem claim_C1_bug :
    image_from_rgba_image 20 img1 = (.panicked "Too many images", 21) := rfl

/-- C9, the null backend: on a platform with no backend implementation
every window operation — enumeration, title, x, y, width, height, focus
query and capture — returns the fixed platform-unsupported error (and,
being a plain error return, neither spawns a worker thread nor aborts). -/
lemma place_in_groups_flatten {p : Pixel} :
    ∀ {gs gs' : List (List Pixel)}, place_in_groups p gs = some gs' →
      gs'.flatten.Perm (gs.flatten ++ [p]) := by
  intro gs
  induction gs with
  | nil => intro gs' h; cases h
  | cons g rest ih =>
    intro gs' h
    rw [place_in_groups] at h
    by_cases hc : g.any fun gp => pixel_close gp p
    · rw [if_pos hc] at h
      injection h with h'
      subst h'
      simp only [List.flatten_cons]
      rw [List.append_assoc, List.append_assoc]
      exact List.Perm.append_left g List.perm_append_comm
    · rw [if_neg hc] at h
      cases hpr : place_in_groups p rest with
      | none => rw [hpr] at h; cases h
      | some gs'' =>
        rw [hpr] at h
        injection h with h'
        subst h'
        simp only [List.flatten_cons]
        rw [List.append_assoc]
        exact List.Perm.append_left g (ih hpr)

lemma add_pixel_to_groups_flatten (gs : List (List Pixel)) (p : Pixel) :
    (add_pixel_to_groups gs p).flatten.Perm (gs.flatten ++ [p]) := by
  rw [add_pixel_to_groups]
  cases hpl : place_in_groups p gs with
  | none =>
    rw [List.flatten_append]
    simp
  | some gs' => exact place_in_groups_flatten hpl

lemma foldl_add_pixel_flatten :
    ∀ (l : List Pixel) (gs : List (List Pixel)),
      ((l.foldl add_pixel_to_groups gs).flatten).Perm (gs.flatten ++ l) := by
  intro l
  induction l with
  | nil => intro gs; simp
  | cons p rest ih =>
    intro gs
    show ((rest.foldl add_pixel_to_groups (add_pixel_to_groups gs p)).flatten).Perm _
    have h1 := ih (add_pixel_to_groups gs p)
    have h2 := (add_pixel_to_groups_flatten gs p).append_right rest
    have heq : (gs.flatten ++ [p]) ++ rest = gs.flatten ++ (p :: rest) := by simp
    rw [heq] at h2
    exact h1.trans h2

lemma place_in_groups_ne_nil {p : Pixel} :
    ∀ {gs gs' : List (List Pixel)}, place_in_groups p gs = some gs' →
      (∀ g ∈ gs, g ≠ []) → ∀ g ∈ gs', g ≠ [] := by
  intro gs
  induction gs with
  | nil => intro gs' h; cases h
  | cons g rest ih =>
    intro gs' h hall
    rw [place_in_groups] at h
    by_cases hc : g.any fun gp => pixel_close gp p
    · rw [if_pos hc] at h
      injection h with h'
      subst h'
      intro g' hg'
      rcases List.mem_cons.mp hg' with rfl | hmem
      · intro habs
        exact absurd (List.append_eq_nil.mp habs).2 (by simp)
      · exact hall g' (List.mem_cons_of_mem _ hmem)
    · rw [if_neg hc] at h
      cases hpr : place_in_groups p rest with
      | none => rw [hpr] at h; cases h
      | some gs'' =>
        rw [hpr] at h
        injection h with h'
        subst h'
        intro g' hg'
        rcases List.mem_cons.mp hg' with rfl | hmem
        · exact hall g' (List.mem_cons_self _ _)
        · exact ih hpr (fun x hx => hall x (List.mem_cons_of_mem _ hx)) g' hmem

lemma add_pixel_to_groups_ne_nil (gs : List (List Pixel)) (p : Pixel)
    (hall : ∀ g ∈ gs, g ≠ []) : ∀ g ∈ add_pixel_to_groups gs p, g ≠ [] := by
  rw [add_pixel_to_groups]
  cases hpl : place_in_groups p gs with
  | none =>
    intro g hg
    rcases List.mem_append.mp hg with hmem | hmem
    · exact hall g hmem
    · rw [List.mem_singleton] at hmem
      subst hmem
      simp
  | some gs' => exact place_in_groups_ne_nil hpl hall

lemma foldl_add_pixel_ne_nil :
    ∀ (l : List Pixel) (gs : List (List Pixel)), (∀ g ∈ gs, g ≠ []) →
      ∀ g ∈ l.foldl add_pixel_to_groups gs, g ≠ [] := by
  intro l
  induction l with
  | nil => intro gs h; exact h
  | cons p rest ih =>
    intro gs h
    exact ih (add_pixel_to_groups gs p) (add_pixel_to_groups_ne_nil gs p h)

lemma perm_pair {α : Type} {l : List α} {a b : α} (h : l.Perm [a, b]) :
    l = [a, b] ∨ l = [b, a] := by
  have hlen : l.length = 2 := by simpa using h.length_eq
  obtain ⟨x, y, rfl⟩ : ∃ x y, l = [x, y] := by
    cases l with
    | nil => simp at hlen
    | cons x t =>
      cases t with
      | nil => simp at hlen
      | cons y u =>
        cases u with
        | nil => exact ⟨x, y, rfl⟩
        | cons z v =>
          exfalso
          simp only [List.length_cons] at hlen
          omega
  have hx : x ∈ [a, b] := h.mem_iff.mp (List.mem_cons_self _ _)
  rcases List.mem_cons.mp hx with rfl | hx2
  · left
    have := List.perm_singleton.mp (h.cons_inv)
    rw [this]
  · rw [List.mem_singleton] at hx2
    subst hx2
    right
    have h2 : List.Perm [x, y] [x, a] := h.trans (List.Perm.swap x a [])
    have := List.perm_singleton.mp (h2.cons_inv)
    rw [this]

/-- `extractFeatures` on the 4 x 4 scenario raster: one feature holding
the single red pixel. -/
lemma get_features_from_color_img4 :
    get_features_from_color img4 4278190335 = .ok [⟨[⟨2, 2, 4278190335⟩]⟩] := by
  have h1 : find_rgbas img4 4278190335 = .ok [⟨2, 2, 4278190335⟩] := by decide
  simp [get_features_from_color, h1, List.mergeSort_singleton, add_pixel_to_groups,
    place_in_groups]

/-- C8 counterexample to the claimed output order: the histogram is
materialized from a `HashMap` in unspecified iteration order, so the
reversed output `[red 1, black 15]` is an admissible result of
`getColourFrequencies(raster, 0, 0, 3, 3)`, and it differs from the
claimed `[black 15, red 1]`. -/
theorem claim_C8_counterexample :
    get_colour_frequencies_results img4 0 0 3 3
        (.ok [⟨4278190335, 1⟩, ⟨255, 15⟩])
    ∧ (Except.ok [ColourFrequency.mk 4278190335 1, ColourFrequency.mk 255 15]
        ≠ (Except.ok [ColourFrequency.mk 255 15, ColourFrequency.mk 4278190335 1] :
          Except String (List ColourFrequency))) := by
  constructor
  · simp only [get_colour_frequencies_results]
    rw [if_neg (by decide)]
    refine ⟨[(4278190335, 1), (255, 15)], ?_, rfl⟩
    have hcc : colour_counts img4 (min 0 3) (max 0 3) (min 0 3) (max 0 3) = [(255, 15), (4278190335, 1)] := by decide
    rw [hcc]
    exact List.Perm.swap (255, 15) (4278190335, 1) []
  · decide

/-- C8 (amended): on the 4 x 4 scenario raster, `findColor` returns
exactly the red pixel, `extractFeatures` returns exactly one feature
holding it, and `getColourFrequencies(0,0,3,3)` returns exactly the two
entries `black 15` and `red 1` — in an unspecified order, since the
source emits the histogram in `HashMap` iteration order. -/
theorem claim_C8 :
    find_rgbas img4 4278190335 = .ok [⟨2, 2, 4278190335⟩]
    ∧ get_features_from_color img4 4278190335 = .ok [⟨[⟨2, 2, 4278190335⟩]⟩]
    ∧ ∀ out, get_colour_frequencies_results img4 0 0 3 3 out →
        out = .ok [⟨255, 15⟩, ⟨4278190335, 1⟩]
        ∨ out = .ok [⟨4278190335, 1⟩, ⟨255, 15⟩] := by
  refine ⟨by decide, get_features_from_color_img4, ?_⟩
  intro out hout
  simp only [get_colour_frequencies_results] at hout
  rw [if_neg (by decide)] at hout
  obtain ⟨kvs, hperm, rfl⟩ := hout
  have hcc : colour_counts img4 (min 0 3) (max 0 3) (min 0 3) (max 0 3) = [(255, 15), (4278190335, 1)] := by decide
  rw [hcc] at hperm
  rcases perm_pair hperm with rfl | rfl
  · left; rfl
  · right; rfl

/-- Witness for C8's universally quantified part at a concrete output. -/
theorem claim_C8_witness :
    get_colour_frequencies_results img4 0 0 3 3 (.ok [⟨255, 15⟩, ⟨4278190335, 1⟩])
    ∧ ((.ok [⟨255, 15⟩, ⟨4278190335, 1⟩] : Except String (List ColourFrequency))
          = .ok [⟨255, 15⟩, ⟨4278190335, 1⟩]
        ∨ (.ok [⟨255, 15⟩, ⟨4278190335, 1⟩] : Except String (List ColourFrequency))
          = .ok [⟨4278190335, 1⟩, ⟨255, 15⟩]) := by
  have hres : get_colour_frequencies_results img4 0 0 3 3
      (.ok [⟨255, 15⟩, ⟨4278190335, 1⟩]) := by
    simp only [get_colour_frequencies_results]
    rw [if_neg (by decide)]
    exact ⟨[(255, 15), (4278190335, 1)], by rw [show colour_counts img4 (min 0 3) (max 0 3) (min 0 3) (max 0 3)
      = [(255, 15), (4278190335, 1)] from by decide], rfl⟩
  exact ⟨hres, claim_C8.2.2 _ hres⟩

/-- C10, extraction partitions the exact-match set: every feature
returned by `extractFeatures` is non-empty, no pixel lies in two
different features, and the features' pixels taken together are exactly
the pixels `findColor` reports for the same raster and color. -/
theorem claim_C10 (img : RgbaImage) (C : ℕ) (pixels : List Pixel) (feats : List Feature)
    (hfind : find_rgbas img C = .ok pixels)
    (hfeat : get_features_from_color img C = .ok feats) :
    (∀ f ∈ feats, f.pixels ≠ [])
    ∧ List.Pairwise (fun f g : Feature => ∀ p ∈ f.pixels, p ∉ g.pixels) feats
    ∧ ∀ p : Pixel, (∃ f ∈ feats, p ∈ f.pixels) ↔ p ∈ pixels := by
  simp only [get_features_from_color, hfind] at hfeat
  injection hfeat with hfeat'
  subst hfeat'
  have hperm : (pixels.mergeSort sort_key_le).Perm pixels :=
    List.mergeSort_perm pixels sort_key_le
  have hjoin0 := foldl_add_pixel_flatten (pixels.mergeSort sort_key_le) []
  simp only [List.flatten_nil, List.nil_append] at hjoin0
  have hjp : ((pixels.mergeSort sort_key_le).foldl add_pixel_to_groups []).flatten.Perm pixels :=
    hjoin0.trans hperm
  have hnodup_pixels : pixels.Nodup := by
    simp only [find_rgbas] at hfind
    injection hfind with hfind'
    rw [← hfind']
    exact find_rgbas_nodup img (rgba_number_into_rgba C)
  have hnodup_join := hjp.nodup_iff.mpr hnodup_pixels
  have hdisj := (List.nodup_flatten.mp hnodup_join).2
  have hne := foldl_add_pixel_ne_nil (pixels.mergeSort sort_key_le) [] (by simp)
  refine ⟨?_, ?_, ?_⟩
  · intro f hf
    rw [List.mem_map] at hf
    obtain ⟨g, hg, rfl⟩ := hf
    exact hne g hg
  · rw [List.pairwise_map]
    refine hdisj.imp ?_
    intro g g' hgg' p hp hp'
    exact hgg' hp hp'
  · intro p
    rw [← hjp.mem_iff, List.mem_flatten]
    constructor
    · rintro ⟨f, hf, hp⟩
      rw [List.mem_map] at hf
      obtain ⟨g, hg, rfl⟩ := hf
      exact ⟨g, hg, hp⟩
    · rintro ⟨g, hg, hp⟩
      exact ⟨⟨g⟩, List.mem_map.mpr ⟨g, hg, rfl⟩, hp⟩

/-- Witness for C10 on the 4 x 4 scenario raster. -/
theorem claim_C10_witness :
    (∀ f ∈ [(⟨[⟨2, 2, 4278190335⟩]⟩ : Feature)], f.pixels ≠ [])
    ∧ List.Pairwise (fun f g : Feature => ∀ p ∈ f.pixels, p ∉ g.pixels)
        [(⟨[⟨2, 2, 4278190335⟩]⟩ : Feature)]
    ∧ ∀ p : Pixel, (∃ f ∈ [(⟨[⟨2, 2, 4278190335⟩]⟩ : Feature)], p ∈ f.pixels)
        ↔ p ∈ [(⟨2, 2, 4278190335⟩ : Pixel)] :=
  claim_C10 img4 4278190335 [⟨2, 2, 4278190335⟩] [⟨[⟨2, 2, 4278190335⟩]⟩]
    (by decide) get_features_from_color_img4

theorem claim_C9 (w : Window) :
    Window.all = .error .UnsupportedPlatform
    ∧ w.title = .error .UnsupportedPlatform
    ∧ w.x = .error .UnsupportedPlatform
    ∧ w.y = .error .UnsupportedPlatform
    ∧ w.width = .error .UnsupportedPlatform
    ∧ w.height = .error .UnsupportedPlatform
    ∧ w.is_focused = .error .UnsupportedPlatform
    ∧ w.capture_image = .error .UnsupportedPlatform :=
  ⟨rfl, rfl, rfl, rfl, rfl, rfl, rfl, rfl⟩

end Herox
